import Mathlib

/-!
Verification of the scikit-fingerprints batch orchestrator (`src/base.py`)
and the MinHashed Atom Pair fingerprint (`src/skfp/fingerprints/map.py`)
against their natural-language specification.

External collaborators (RDKit, hashlib, datasketch, joblib) are modelled as
oracles: abstract functions supplied as parameters or structure fields, so
results quantify over every possible behaviour of the toolkit.
-/

namespace Base

/-- A Python value handed to `FingerprintTransformer.transform`, as
distinguished by `_validate_input`: an RDKit `Mol` object (abstracted to an
arbitrary type `M`), a string, Python `None` (the result of a failed
`MolFromSmiles` parse), or any other object. -/
inductive PyObj (M : Type) where
  | mol (m : M)
  | str (s : String)
  | pynone
  | other
  deriving DecidableEq, Repr

/-- Whether the `isinstance(molecule, Mol) or type(molecule) == str` check of
`_validate_input` accepts the element. -/
def PyObj.molOrStr {M : Type} : PyObj M → Bool
  | .mol _ => true
  | .str _ => true
  | _ => false

/-- Whether an element is already a `Mol` object. -/
def PyObj.isMol {M : Type} : PyObj M → Bool
  | .mol _ => true
  | _ => false

/-- Embedding of `FingerprintTransformer._validate_input` (src/base.py lines 31-39).
For each element: raise `ValueError` when the element is neither a `Mol` nor a
string; replace a string element by `MolFromSmiles(element)` — which is a `Mol`
on success and Python `None` on a failed parse (RDKit returns `None`, it does
not raise).  The Python code assigns `X[i] = MolFromSmiles(molecule)` in place,
so the returned list is also the list held by the caller after the call.
`parse` is the external `MolFromSmiles` oracle. -/
def validate_input {M : Type} (parse : String → Option M) :
    List (PyObj M) → Except String (List (PyObj M))
  | [] => .ok []
  | x :: xs =>
    match x with
    | .mol m => (validate_input parse xs).map (fun r => .mol m :: r)
    | .str s =>
      (validate_input parse xs).map
        (fun r => (match parse s with
                   | some m => PyObj.mol m
                   | none => PyObj.pynone) :: r)
    | _ => .error "Passed value is neither rdkit.Chem.rdChem.Mol nor SMILES"

/-- The sub-batches `X[i : i + b]` produced by the Python slice generator
`(X[i : i + b] for i in range(0, len(X), b))` in
`FingerprintTransformer.transform` (src/base.py lines 59-61): start offsets
are `0, b, 2b, ...` while below `len(X)`, i.e. `ceil(len(X) / b)` many. -/
def sub_batches {α : Type} (b : Nat) (X : List α) : List (List α) :=
  (List.range' 0 ((X.length + b - 1) / b) b).map (fun i => (X.drop i).take b)

/-- Embedding of `np.concatenate(results)` on a list of per-batch row blocks
(src/base.py line 69): concatenation of the blocks, except that numpy raises
`ValueError: need at least one array to concatenate` when the list of arrays
is empty. -/
def np_concatenate {β : Type} (results : List (List β)) : Except String (List β) :=
  match results with
  | [] => .error "need at least one array to concatenate"
  | _ => .ok results.flatten

/-- Embedding of `FingerprintTransformer.transform` after validation (src/base.py lines
54-69): with one worker, call `_calculate_fingerprint` on the whole input;
otherwise split into contiguous sub-batches of size
`max(len(X) // n_jobs, 1)`, run `_calculate_fingerprint` on each (joblib
returns per-batch results in submission order), and `np.concatenate` the
per-batch results — which raises when there is no sub-batch, i.e. on an empty
input. `calcFp` is the subclass `_calculate_fingerprint` method. -/
def transform {α β : Type} (n_jobs : Nat) (calcFp : List α → List β)
    (X : List α) : Except String (List β) :=
  if n_jobs = 1 then .ok (calcFp X)
  else np_concatenate ((sub_batches (max (X.length / n_jobs) 1) X).map calcFp)

/-- Embedding of `transform` including the initial `_validate_input` call
(src/base.py line 52): a validation error aborts before any fingerprint
computation. -/
def full_transform {M β : Type} (parse : String → Option M) (n_jobs : Nat)
    (calcFp : List (PyObj M) → List β) (X : List (PyObj M)) :
    Except String (List β) :=
  (validate_input parse X).bind (transform n_jobs calcFp)

end Base

namespace MAP

/-- Oracle for the external RDKit toolkit, one value per molecule.
`envOfRadius i r` is `FindAtomEnvironmentOfRadiusN(mol, i, r)`: `none` when the
call raises `ValueError` (radius larger than the topology supports), otherwise
the bond path of the environment.  `inSubmolMap env i` tells whether atom `i`
appears in the `atomMap` filled by `PathToSubmol(mol, env, atomMap=...)`, and
`smilesOf env i` is `MolToSmiles(submol, rootedAtAtom=atomMap[i],
canonical=True, isomericSmiles=False)`.  `dist i j` is the
`GetDistanceMatrix(mol)` entry (a float in RDKit, modelled as a rational), and
`numAtoms` is `mol.GetNumAtoms()`. -/
structure Toolkit where
  numAtoms : Nat
  envOfRadius : Nat → Nat → Option (List Nat)
  inSubmolMap : List Nat → Nat → Bool
  smilesOf : List Nat → Nat → String
  dist : Nat → Nat → ℚ

/-- Python `int()` applied to a numeric value: truncation toward zero. -/
def py_int (q : ℚ) : Int := if 0 ≤ q then q.floor else -((-q).floor)

/-- Python truthiness of an `Optional[str]`: `None` and the empty string are
falsy, everything else is truthy. -/
def py_truthy : Option String → Bool
  | none => false
  | some s => !s.isEmpty

/-- Embedding of `MAPFingerprint._find_neighborhood` (src/skfp/fingerprints/map.py lines
189-215): `none` when `FindAtomEnvironmentOfRadiusN` raises `ValueError` or
when the atom is missing from the submol atom map; otherwise the canonical
non-isomeric SMILES of the submol rooted at the atom. -/
def find_neighborhood (tk : Toolkit) (atom_idx n_radius : Nat) : Option String :=
  match tk.envOfRadius atom_idx n_radius with
  | none => none
  | some env =>
    if tk.inSubmolMap env atom_idx then some (tk.smilesOf env atom_idx)
    else none

/-- Embedding of `MAPFingerprint._get_atom_envs` (lines 175-187): for each atom, the list
of neighborhoods at radii `1 .. radius`. -/
def get_atom_envs (tk : Toolkit) (radius : Nat) : Nat → List (Option String) :=
  fun idx => (List.range' 1 radius).map (fun r => find_neighborhood tk idx r)

/-- Lexicographic comparison of character lists by code point — the
comparison Python performs on `str` values. -/
def chars_lt : List Char → List Char → Bool
  | [], [] => false
  | [], _ :: _ => true
  | _ :: _, [] => false
  | c :: cs, d :: ds => if c < d then true else if d < c then false else chars_lt cs ds

/-- Python `a < b` on strings. -/
def str_lt (a b : String) : Bool := chars_lt a.data b.data

/-- Python `sorted([a, b])` for two strings: swap exactly when `b < a`. -/
def sorted2 (a b : String) : String × String :=
  if str_lt b a then (b, a) else (a, b)

/-- The shingle string `f"{ordered[0]}|{dist}|{ordered[1]}"` of
`_get_atom_pair_shingles` (line 248). -/
def mk_shingle (d : String) (a b : String) : String :=
  (sorted2 a b).1 ++ "|" ++ d ++ "|" ++ (sorted2 a b).2

/-- Body of the inner loop of `_get_atom_pair_shingles` (lines 239-248) for a
pair `(i, j)` at radius index `ridx` (radius `ridx + 1`): `none` when either
neighborhood is falsy (`None`; the empty string is also falsy in Python),
otherwise the shingle built from the truncated integer distance and the two
sorted neighborhood strings. -/
def shingle_at (tk : Toolkit) (envs : Nat → List (Option String))
    (i j ridx : Nat) : Option String :=
  let ea := (envs i).getD ridx none
  let eb := (envs j).getD ridx none
  if py_truthy ea && py_truthy eb then
    some (mk_shingle (toString (py_int (tk.dist i j))) (ea.getD "") (eb.getD ""))
  else none

/-- Embedding of `itertools.combinations(range(n), 2)`: all pairs `(i, j)` with
`i < j < n`, in lexicographic order. -/
def combinations2 (n : Nat) : List (Nat × Nat) :=
  (List.range n).flatMap
    (fun i => (List.range' (i + 1) (n - (i + 1))).map (fun j => (i, j)))

/-- One `shingle_dict[shingle] += 1` step on a Python `defaultdict(int)`,
modelled as an insertion-ordered association list: an existing key is
incremented in place, a new key is appended with count 1. -/
def bump (k : String) : List (String × Nat) → List (String × Nat)
  | [] => [(k, 1)]
  | (k', c) :: rest =>
    if k' = k then (k', c + 1) :: rest else (k', c) :: bump k rest

/-- Embedding of `MAPFingerprint._get_atom_pair_shingles` (lines 217-268): iterate over all
atom pairs and radii; in count mode accumulate occurrence counts per distinct
shingle in insertion order and emit `f"{shingle}|{count}"` entries at the end,
otherwise append each shingle occurrence directly.  (The final `.encode()` to
bytes is the identity on the string contents and is left implicit.) -/
def get_atom_pair_shingles (tk : Toolkit) (envs : Nat → List (Option String))
    (radius : Nat) (countMode : Bool) : List String :=
  let res :=
    (combinations2 tk.numAtoms).foldl
      (fun acc p =>
        (List.range radius).foldl
          (fun acc2 ridx =>
            match shingle_at tk envs p.1 p.2 ridx with
            | none => acc2
            | some sh =>
              if countMode then (acc2.1, bump sh acc2.2)
              else (acc2.1 ++ [sh], acc2.2))
          acc)
      (([] : List String), ([] : List (String × Nat)))
  if countMode then
    res.1 ++ res.2.map (fun kc => kc.1 ++ "|" ++ toString kc.2)
  else res.1

/-- Little-endian unsigned 32-bit interpretation of the first four bytes,
`struct.unpack("<I", hash_bytes[:4])[0]`. -/
def le_u32 (bs : List Nat) : Nat :=
  match bs with
  | b0 :: b1 :: b2 :: b3 :: _ => b0 + 256 * b1 + 65536 * b2 + 16777216 * b3
  | _ => 0

/-- Embedding of `MAPFingerprint._get_hash` (lines 270-273): the first 4 bytes of the SHA-1
digest of the shingle bytes, as an unsigned little-endian 32-bit integer.
`digestBytes` is the digest produced by the external
`hashlib.sha1(shingle, usedforsecurity=False)`. -/
def get_hash (digestBytes : List Nat) : Nat := le_u32 (digestBytes.take 4)

/-- Modelled from the spec: the bucket index of §4.3 — take the first 4 bytes
of the digest, interpret them as an unsigned little-endian 32-bit integer,
reduce modulo the output size. -/
def spec_bucket_index (digestBytes : List Nat) (output_size : Nat) : Nat :=
  (le_u32 (digestBytes.take 4)) % output_size

/-- Embedding of `np.bincount(bits, minlength=m)`: a histogram whose length is the maximum
of `m` and one more than the largest value, entry `k` counting the
occurrences of `k`. -/
def bincount (bits : List Nat) (minlength : Nat) : List Nat :=
  let n := max (bits.foldl (fun a b => max a (b + 1)) 0) minlength
  (List.range n).map (fun k => bits.count k)

/-- Modelled from the spec: the digest of the external `datasketch.MinHash`
sketch (§4.3) — `num_perm` seeded permutation functions, each output entry
being the minimum hash value of that permutation over all shingles (the
maximal hash value of the permutation when there is no shingle). -/
def minhash_digest (num_perm : Nat) (perm_hash : Nat → String → Nat)
    (init_val : Nat) (shingles : List String) : List Nat :=
  (List.range num_perm).map
    (fun k => shingles.foldl (fun m s => min m (perm_hash k s)) init_val)

/-- The three values of the `variant` parameter of `MAPFingerprint`. -/
inductive Variant where
  | raw_hashes
  | bit
  | count
  deriving DecidableEq, Repr

/-- Whether `self.variant == "count"`. -/
def Variant.countMode : Variant → Bool
  | .count => true
  | _ => false

/-- Embedding of `MAPFingerprint._calculate_single_mol_fingerprint` (lines 159-173).
`sha1` is the external digest oracle (bytes of `hashlib.sha1(shingle).digest()`
for the encoded shingle); `perm_hash`/`init_val` model the seeded MinHash. -/
def calculate_single_mol_fingerprint (tk : Toolkit) (radius fp_size : Nat)
    (variant : Variant) (sha1 : String → List Nat)
    (perm_hash : Nat → String → Nat) (init_val : Nat) : List Nat :=
  let atoms_envs := get_atom_envs tk radius
  let shingles := get_atom_pair_shingles tk atoms_envs radius variant.countMode
  match variant with
  | .raw_hashes => minhash_digest fp_size perm_hash init_val shingles
  | _ =>
    let hashes := shingles.map (fun sh => get_hash (sha1 sh))
    let bits := hashes.map (fun h => h % fp_size)
    bincount bits fp_size

/-- One row of `MAPFingerprint._calculate_fingerprint` (lines 144-157) after
the per-variant postprocessing: the bit variant clips the folded histogram to
`{0, 1}` (`(X > 0).astype(np.uint8)`), the other variants keep the row. -/
def final_fingerprint (tk : Toolkit) (radius fp_size : Nat) (variant : Variant)
    (sha1 : String → List Nat) (perm_hash : Nat → String → Nat)
    (init_val : Nat) : List Nat :=
  let fp := calculate_single_mol_fingerprint tk radius fp_size variant sha1
    perm_hash init_val
  match variant with
  | .bit => fp.map (fun v => if 0 < v then 1 else 0)
  | _ => fp

/-- The shingle occurrences of one molecule, one entry per (atom-pair, radius)
combination whose two neighborhoods are both present, in iteration order. -/
def all_shingles (tk : Toolkit) (envs : Nat → List (Option String))
    (radius : Nat) : List String :=
  (combinations2 tk.numAtoms).flatMap
    (fun p => (List.range radius).filterMap (shingle_at tk envs p.1 p.2))

/-- The number of (atom-pair, radius) combinations for which both
neighborhoods at that radius exist, duplicates included — the quantity the
specification equates with the sum of a count vector. -/
def num_valid_combos (tk : Toolkit) (envs : Nat → List (Option String))
    (radius : Nat) : Nat :=
  ((combinations2 tk.numAtoms).map
    (fun p =>
      ((List.range radius).filter
        (fun ridx => py_truthy ((envs p.1).getD ridx none)
          && py_truthy ((envs p.2).getD ridx none))).length)).sum

/-- Toolkit model of propane (`CCC`): three atoms in a path, every radius-1
environment present (`CC` for the terminal atoms, `C(C)C` for the central
one), radius-1 environments only. -/
def tk_propane : Toolkit where
  numAtoms := 3
  envOfRadius := fun idx r => if r = 1 then some [idx] else none
  inSubmolMap := fun _ _ => true
  smilesOf := fun _ idx => if idx = 1 then "C(C)C" else "CC"
  dist := fun i j =>
    if i = j then 0 else if (i = 0 && j = 2) || (i = 2 && j = 0) then 2 else 1

/-- Toolkit model of the two-atom molecule `[Li]F`: radius-1 environments
exist, `FindAtomEnvironmentOfRadiusN` raises (returns `none` here) at any
larger radius. -/
def tk_lif : Toolkit where
  numAtoms := 2
  envOfRadius := fun _ r => if r = 1 then some [0] else none
  inSubmolMap := fun _ _ => true
  smilesOf := fun _ idx => if idx = 0 then "[Li]F" else "F[Li]"
  dist := fun i j => if i = j then 0 else 1

/-- Minimal two-atom toolkit used to instantiate general theorems. -/
def tk_pair : Toolkit where
  numAtoms := 2
  envOfRadius := fun _ r => if r = 1 then some [0] else none
  inSubmolMap := fun _ _ => true
  smilesOf := fun _ _ => "C"
  dist := fun i j => if i = j then 0 else 1

/-- A trivial stand-in digest oracle: 20 zero bytes for every input. -/
def sha_zero : String → List Nat := fun _ => List.replicate 20 0

end MAP

namespace Base

theorem sub_batches_nil {α : Type} (b : Nat) (hb : 1 ≤ b) :
    sub_batches b ([] : List α) = [] := by
  have h : (b - 1) / b = 0 := Nat.div_eq_of_lt (by omega)
  simp [sub_batches, h]

theorem sub_batches_cons {α : Type} (b : Nat) (hb : 1 ≤ b) (X : List α)
    (hX : X ≠ []) :
    sub_batches b X = X.take b :: sub_batches b (X.drop b) := by
  have hn : 1 ≤ X.length := List.length_pos.mpr hX
  unfold sub_batches
  have hcount : (X.length + b - 1) / b = (X.length - 1) / b + 1 := by
    have h1 : X.length + b - 1 = (X.length - 1) + b := by omega
    rw [h1, Nat.add_div_right _ (by omega)]
  have hcount2 : ((X.drop b).length + b - 1) / b = (X.length - 1) / b := by
    rw [List.length_drop]
    rcases lt_or_le b X.length with h | h
    · have h1 : X.length - b + b - 1 = (X.length - b - 1) + b := by omega
      rw [h1, Nat.add_div_right _ (by omega)]
      have h2 : X.length - 1 = (X.length - b - 1) + b := by omega
      rw [h2, Nat.add_div_right _ (by omega)]
    · have h1 : X.length - b = 0 := by omega
      rw [h1]
      have h2 : (0 + b - 1) / b = 0 := Nat.div_eq_of_lt (by omega)
      have h3 : (X.length - 1) / b = 0 := Nat.div_eq_of_lt (by omega)
      rw [h2, h3]
  rw [hcount, hcount2, List.range'_succ, List.map_cons]
  simp only [List.drop_zero, Nat.zero_add]
  congr 1
  have hshift : List.range' b ((X.length - 1) / b) b
      = (List.range' 0 ((X.length - 1) / b) b).map (fun i => b + i) := by
    rw [show List.range' b ((X.length - 1) / b) b
        = List.range' (b + 0) ((X.length - 1) / b) b by rw [Nat.add_zero],
      ← List.map_add_range']
  rw [hshift, List.map_map]
  apply List.map_congr_left
  intro i _
  simp only [Function.comp_apply]
  rw [List.drop_drop, Nat.add_comm]

theorem flatten_sub_batches {α : Type} (b : Nat) (hb : 1 ≤ b) :
    ∀ (n : Nat) (X : List α), X.length = n → (sub_batches b X).flatten = X := by
  intro n
  induction n using Nat.strong_induction_on with
  | _ n ih =>
    intro X hX
    subst hX
    rcases X with _ | ⟨x, xs⟩
    · rw [sub_batches_nil b hb]
      rfl
    · rw [sub_batches_cons b hb _ (by simp), List.flatten_cons,
        ih ((x :: xs).drop b).length (by simp; omega) _ rfl,
        List.take_append_drop]

theorem np_concatenate_ne_nil {β : Type} (l : List (List β)) (hl : l ≠ []) :
    np_concatenate l = .ok l.flatten := by
  cases l with
  | nil => exact absurd rfl hl
  | cons r rs => rfl

theorem transform_one {α β : Type} (calcFp : List α → List β) (X : List α) :
    transform 1 calcFp X = .ok (calcFp X) := by
  unfold transform
  rw [if_pos rfl]

/-- The only error `transform` itself can produce is the numpy concatenate
error (validation errors are raised before it is entered). -/
theorem transform_error_msg {α β : Type} (w : Nat) (calcFp : List α → List β)
    (X : List α) (e : String) (h : transform w calcFp X = .error e) :
    e = "need at least one array to concatenate" := by
  unfold transform at h
  by_cases hw : w = 1
  · rw [if_pos hw] at h
    exact absurd h (by simp)
  · rw [if_neg hw] at h
    cases hres : (sub_batches (max (X.length / w) 1) X).map calcFp with
    | nil =>
      rw [hres] at h
      have h2 : (Except.error "need at least one array to concatenate"
          : Except String (List β)) = .error e := h
      simpa using h2.symm
    | cons r rs =>
      rw [hres] at h
      exact absurd h (by simp [np_concatenate])

/-- With a per-molecule fingerprint function `f` (every
`_calculate_fingerprint` computes one row per input molecule), `transform`
returns exactly the per-element map on every nonempty input, for every worker
count. -/
theorem transform_eq_map {α β : Type} (w : Nat) (f : α → β) (X : List α)
    (hX : X ≠ []) : transform w (List.map f) X = .ok (X.map f) := by
  unfold transform
  rcases Nat.decEq w 1 with h | h
  · rw [if_neg h]
    have hb : 1 ≤ max (X.length / w) 1 := le_max_right _ _
    have hne : (sub_batches (max (X.length / w) 1) X).map (List.map f)
        ≠ [] := by
      rw [sub_batches_cons _ hb X hX]
      simp
    rw [np_concatenate_ne_nil _ hne, ← List.map_flatten,
      flatten_sub_batches _ hb X.length X rfl]
  · rw [if_pos h]

/-- Validation neither drops nor adds elements: it replaces them in place. -/
theorem validate_input_length {M : Type} (parse : String → Option M) :
    ∀ (X V : List (PyObj M)), validate_input parse X = .ok V
      → V.length = X.length := by
  intro X
  induction X with
  | nil =>
    intro V h
    have h2 : V = [] := by simpa [validate_input] using h.symm
    simp [h2]
  | cons x xs ih =>
    intro V h
    cases x with
    | mol m =>
      simp only [validate_input] at h
      rcases hxs : validate_input parse xs with e | v
      · rw [hxs] at h
        exact absurd h (by simp [Except.map])
      · rw [hxs] at h
        have h2 : PyObj.mol m :: v = V := by simpa [Except.map] using h
        rw [← h2, List.length_cons, ih v hxs, List.length_cons]
    | str t =>
      simp only [validate_input] at h
      rcases hxs : validate_input parse xs with e | v
      · rw [hxs] at h
        exact absurd h (by simp [Except.map])
      · rw [hxs] at h
        have h2 : (match parse t with
            | some m => PyObj.mol m
            | none => PyObj.pynone) :: v = V := by
          simpa [Except.map] using h
        rw [← h2, List.length_cons, ih v hxs, List.length_cons]
    | pynone => exact absurd h (by simp [validate_input])
    | other => exact absurd h (by simp [validate_input])

/-- Characterization of validation failure: `validate_input` raises the
`ValueError` exactly when some element is neither a `Mol` nor a string. -/
theorem validate_input_error_iff {M : Type} (parse : String → Option M)
    (X : List (PyObj M)) :
    (∃ x ∈ X, x.molOrStr = false) ↔
      validate_input parse X
        = .error "Passed value is neither rdkit.Chem.rdChem.Mol nor SMILES" := by
  induction X with
  | nil =>
    constructor
    · rintro ⟨x, hx, _⟩
      exact absurd hx (List.not_mem_nil x)
    · intro h
      exact absurd h (by simp [validate_input])
  | cons x xs ih =>
    constructor
    · rintro ⟨y, hy, hbad⟩
      rcases List.mem_cons.mp hy with rfl | hy'
      · cases y with
        | mol m => exact absurd hbad (by simp [PyObj.molOrStr])
        | str s => exact absurd hbad (by simp [PyObj.molOrStr])
        | pynone => rfl
        | other => rfl
      · have herr := ih.mp ⟨y, hy', hbad⟩
        cases x with
        | mol m => simp [validate_input, herr, Except.map]
        | str s => simp [validate_input, herr, Except.map]
        | pynone => rfl
        | other => rfl
    · intro herr
      cases x with
      | mol m =>
        refine (ih.mpr ?_).imp (fun y hy => ⟨List.mem_cons_of_mem _ hy.1, hy.2⟩)
        simp only [validate_input] at herr
        rcases h : validate_input parse xs with e | v
        · simpa [h, Except.map] using herr
        · rw [h] at herr
          exact absurd herr (by simp [Except.map])
      | str s =>
        refine (ih.mpr ?_).imp (fun y hy => ⟨List.mem_cons_of_mem _ hy.1, hy.2⟩)
        simp only [validate_input] at herr
        rcases h : validate_input parse xs with e | v
        · simpa [h, Except.map] using herr
        · rw [h] at herr
          exact absurd herr (by simp [Except.map])
      | pynone => exact ⟨.pynone, List.mem_cons_self _ _, rfl⟩
      | other => exact ⟨.other, List.mem_cons_self _ _, rfl⟩

/-- Validation of a sequence of already-parsed `Mol` objects returns the
sequence itself: no element is replaced. -/
theorem validate_input_all_mol {M : Type} (parse : String → Option M)
    (X : List (PyObj M)) (h : ∀ x ∈ X, x.isMol = true) :
    validate_input parse X = .ok X := by
  induction X with
  | nil => rfl
  | cons x xs ih =>
    cases x with
    | mol m =>
      simp only [validate_input, ih (fun y hy => h y (List.mem_cons_of_mem _ hy))]
      rfl
    | str s => exact absurd (h _ (List.mem_cons_self _ _)) (by simp [PyObj.isMol])
    | pynone => exact absurd (h _ (List.mem_cons_self _ _)) (by simp [PyObj.isMol])
    | other => exact absurd (h _ (List.mem_cons_self _ _)) (by simp [PyObj.isMol])

/-- C2 counterexample: on the empty input sequence with two workers, the
parallel path of `transform` raises the numpy concatenate `ValueError`
(`np.concatenate` of zero arrays, src/base.py line 69), while the sequential
path returns the empty result — so the outputs of the two configurations are
not identical for every input sequence. -/
theorem c2_counterexample :
    transform 2 (List.map (fun n : Nat => n + 1)) ([] : List Nat)
        = .error "need at least one array to concatenate"
    ∧ transform 1 (List.map (fun n : Nat => n + 1)) ([] : List Nat)
        = .ok ([] : List Nat) := by
  constructor
  · rfl
  · rfl

/-- C2 as amended: for every nonempty input sequence and every configuration
with more than one worker, `transform` (validation included) produces output
identical, row for row, to the same transform run with one worker, and the
output rows follow the input order: row `i` is the fingerprint of validated
input element `i`.  On the empty input the parallel path raises the numpy
concatenate error instead.  `f` is the per-molecule fingerprint computation
performed by the subclass `_calculate_fingerprint` method. -/
theorem c2_amended_parallel_equals_sequential {M β : Type}
    (parse : String → Option M) (f : PyObj M → β) (w : Nat)
    (X : List (PyObj M)) (hw : 2 ≤ w) (hX : X ≠ []) :
    full_transform parse w (List.map f) X
        = full_transform parse 1 (List.map f) X ∧
      ∀ V, validate_input parse X = .ok V →
        full_transform parse w (List.map f) X = .ok (V.map f) := by
  have hVne : ∀ V, validate_input parse X = .ok V → V ≠ [] := by
    intro V hV hnil
    subst hnil
    have hlen := validate_input_length parse X [] hV
    exact hX (List.eq_nil_of_length_eq_zero (by simpa using hlen.symm))
  constructor
  · unfold full_transform
    rcases hv : validate_input parse X with e | v
    · rfl
    · have hvne := hVne v hv
      show transform w (List.map f) v = transform 1 (List.map f) v
      rw [transform_eq_map w f v hvne, transform_one]
  · intro V hV
    unfold full_transform
    rw [hV]
    show transform w (List.map f) V = .ok (V.map f)
    exact transform_eq_map w f V (hVne V hV)

/-- Witness for amended C2 at a concrete input: two workers on three
molecules give the sequential result, in input order. -/
theorem c2_witness :
    ((2 : Nat) ≤ 2
      ∧ ([PyObj.mol (1 : Nat), PyObj.mol 2, PyObj.mol 3] : List (PyObj Nat))
        ≠ []) ∧
      (full_transform (fun _ => some (0 : Nat)) 2
            (List.map (fun x => (x, x))) [PyObj.mol 1, PyObj.mol 2, PyObj.mol 3]
          = full_transform (fun _ => some (0 : Nat)) 1
            (List.map (fun x => (x, x)))
            [PyObj.mol 1, PyObj.mol 2, PyObj.mol 3] ∧
        ∀ V, validate_input (fun _ => some (0 : Nat))
              [PyObj.mol 1, PyObj.mol 2, PyObj.mol 3] = .ok V →
          full_transform (fun _ => some (0 : Nat)) 2
              (List.map (fun x => (x, x)))
              [PyObj.mol 1, PyObj.mol 2, PyObj.mol 3]
            = .ok (V.map (fun x => (x, x)))) :=
  ⟨⟨by decide, by decide⟩,
    c2_amended_parallel_equals_sequential (fun _ => some (0 : Nat))
      (fun x => (x, x)) 2 [PyObj.mol 1, PyObj.mol 2, PyObj.mol 3] (by decide)
      (by decide)⟩

/-- C3 counterexample: an input sequence whose only element is a string that
is not parseable (the `MolFromSmiles` oracle returns `None` on it) passes
validation and `transform` returns a full result — no input-validation error
is raised, contradicting the claim that such a batch fails immediately. -/
theorem c3_counterexample :
    full_transform (M := Nat) (fun _ => none) 1 (List.map (fun _ => (0 : Nat)))
        [PyObj.str "not-a-smiles"] = .ok [0] ∧
      validate_input (M := Nat) (fun _ => none) [PyObj.str "not-a-smiles"]
        = .ok [PyObj.pynone] := by
  constructor <;> rfl

/-- C3 as amended: `transform` fails the whole batch with the input-validation
`ValueError`, returning no results, exactly when some element is neither a
`Mol` object nor a string of any kind; a string element that fails to parse is
silently replaced by `None` and does not trigger a validation error. -/
theorem c3_amended_validation_error_iff {M β : Type} (parse : String → Option M)
    (w : Nat) (calcFp : List (PyObj M) → List β) (X : List (PyObj M)) :
    (∃ x ∈ X, x.molOrStr = false) ↔
      full_transform parse w calcFp X
        = .error "Passed value is neither rdkit.Chem.rdChem.Mol nor SMILES" := by
  rw [validate_input_error_iff parse X]
  unfold full_transform
  constructor
  · intro h
    rw [h]
    rfl
  · intro h
    rcases hv : validate_input parse X with e | v
    · rw [hv] at h
      simpa [Except.bind] using h
    · rw [hv] at h
      have h2 : transform w calcFp v
          = .error "Passed value is neither rdkit.Chem.rdChem.Mol nor SMILES" :=
        h
      have hmsg := transform_error_msg w calcFp v _ h2
      exact absurd hmsg (by decide)

/-- C4 counterexample: a sequence holding one SMILES string is mutated by
the validation step of `transform` — the line `X[i] = MolFromSmiles(molecule)`
replaces the string element of the caller with the parsed `Mol` object, so the
sequence held by the caller afterwards differs from the input. -/
theorem c4_counterexample :
    validate_input (M := Nat) (fun _ => some 7) [PyObj.str "C"]
        = .ok [PyObj.mol 7] ∧
      ([PyObj.mol 7] : List (PyObj Nat)) ≠ [PyObj.str "C"] := by
  constructor
  · rfl
  · decide

/-- C4 as amended: the batch transform leaves the input sequence unchanged
when every element is already a parsed `Mol` object; string elements are
replaced in place by their parse results. -/
theorem c4_amended_mol_input_unchanged {M : Type} (parse : String → Option M)
    (X : List (PyObj M)) (h : ∀ x ∈ X, x.isMol = true) :
    validate_input parse X = .ok X :=
  validate_input_all_mol parse X h

/-- Witness for C4 at a concrete all-`Mol` input. -/
theorem c4_witness :
    (∀ x ∈ [PyObj.mol (5 : Nat), PyObj.mol 6], x.isMol = true) ∧
      validate_input (M := Nat) (fun _ => none) [PyObj.mol 5, PyObj.mol 6]
        = .ok [PyObj.mol 5, PyObj.mol 6] :=
  ⟨by decide,
    c4_amended_mol_input_unchanged (fun _ => none) [PyObj.mol 5, PyObj.mol 6]
      (by decide)⟩

end Base

namespace MAP

theorem chars_lt_iff : ∀ xs ys : List Char, chars_lt xs ys = true ↔ xs < ys := by
  intro xs
  induction xs with
  | nil =>
    intro ys
    cases ys with
    | nil => exact iff_of_false (by simp [chars_lt]) (fun h => by cases h)
    | cons d ds => exact iff_of_true rfl List.Lex.nil
  | cons c cs ih =>
    intro ys
    cases ys with
    | nil => exact iff_of_false (by simp [chars_lt]) (fun h => by cases h)
    | cons d ds =>
      show (if c < d then true else if d < c then false else chars_lt cs ds)
          = true ↔ _
      by_cases h1 : c < d
      · exact iff_of_true (by simp [h1]) (List.Lex.rel h1)
      · by_cases h2 : d < c
        · refine iff_of_false (by simp [h1, h2]) (fun h => ?_)
          cases h with
          | cons h' => exact absurd h2 (lt_irrefl c)
          | rel h' => exact absurd h' h1
        · have hcd : c = d := le_antisymm (le_of_not_lt h2) (le_of_not_lt h1)
          subst hcd
          rw [if_neg h1, if_neg h2, ih ds]
          constructor
          · exact fun h => List.Lex.cons h
          · intro h
            cases h with
            | cons h' => exact h'
            | rel h' => exact absurd h' (lt_irrefl c)

theorem str_lt_iff (a b : String) : str_lt a b = true ↔ a < b := by
  rw [String.lt_iff_toList_lt]
  exact chars_lt_iff a.data b.data

/-- Lemma: `sorted2` puts the lexicographically smaller string first and the larger
second. -/
theorem sorted2_min_max (a b : String) : sorted2 a b = (min a b, max a b) := by
  unfold sorted2
  by_cases h : str_lt b a = true
  · have hba : b < a := (str_lt_iff b a).mp h
    rw [if_pos h, min_eq_right hba.le, max_eq_left hba.le]
  · have hab : a ≤ b := le_of_not_lt (fun hc => h ((str_lt_iff b a).mpr hc))
    rw [if_neg h, min_eq_left hab, max_eq_right hab]

theorem mk_shingle_comm (d a b : String) : mk_shingle d a b = mk_shingle d b a := by
  unfold mk_shingle
  rw [sorted2_min_max, sorted2_min_max, min_comm, max_comm]

/-- Folding the optional-update loop body over a list is folding the update
over the present values. -/
theorem foldl_match_opt {σ γ : Type} (gen : γ → Option String)
    (upd : σ → String → σ) :
    ∀ (l : List γ) (acc : σ),
      l.foldl (fun a r =>
        match gen r with
        | none => a
        | some sh => upd a sh) acc
      = (l.filterMap gen).foldl upd acc := by
  intro l
  induction l with
  | nil => intro acc; rfl
  | cons r l ih =>
    intro acc
    rw [List.foldl_cons, List.filterMap_cons]
    cases h : gen r with
    | none =>
      rw [ih]
    | some sh =>
      rw [ih]
      rfl

theorem foldl_pairs {σ γ : Type} (g2 : γ → List String) (upd : σ → String → σ)
    (L : List γ) (acc : σ) :
    L.foldl (fun a p => (g2 p).foldl upd a) acc = (L.flatMap g2).foldl upd acc := by
  rw [show L.flatMap g2 = (L.map g2).flatten from rfl, List.foldl_flatten,
    List.foldl_map]

/-- Appending each emitted shingle accumulates exactly the emitted sequence. -/
theorem foldl_append_snoc :
    ∀ (S : List String) (x : List String × List (String × Nat)),
      S.foldl (fun a sh => (a.1 ++ [sh], a.2)) x = (x.1 ++ S, x.2) := by
  intro S
  induction S with
  | nil => intro x; simp
  | cons sh S ih =>
    intro x
    rw [List.foldl_cons, ih]
    simp

theorem foldl_bump_snd :
    ∀ (S : List String) (x : List String × List (String × Nat)),
      S.foldl (fun a sh => (a.1, bump sh a.2)) x
        = (x.1, S.foldl (fun d sh => bump sh d) x.2) := by
  intro S
  induction S with
  | nil => intro x; rfl
  | cons sh S ih =>
    intro x
    rw [List.foldl_cons, ih, List.foldl_cons]

/-- In non-count mode, `_get_atom_pair_shingles` returns exactly one shingle
occurrence per (atom-pair, radius) combination with both neighborhoods
present, in iteration order, duplicates retained. -/
theorem get_atom_pair_shingles_false (tk : Toolkit)
    (envs : Nat → List (Option String)) (radius : Nat) :
    get_atom_pair_shingles tk envs radius false = all_shingles tk envs radius := by
  unfold get_atom_pair_shingles
  simp only [Bool.false_eq_true, if_false]
  have hstep : (fun (acc : List String × List (String × Nat)) (p : Nat × Nat) =>
      (List.range radius).foldl
        (fun a r =>
          match shingle_at tk envs p.1 p.2 r with
          | none => a
          | some sh => (a.1 ++ [sh], a.2)) acc)
      = fun acc p =>
        ((List.range radius).filterMap (shingle_at tk envs p.1 p.2)).foldl
          (fun a sh => (a.1 ++ [sh], a.2)) acc := by
    funext acc p
    rw [foldl_match_opt]
  rw [hstep, foldl_pairs, foldl_append_snoc]
  rfl

/-- In count mode, `_get_atom_pair_shingles` returns one `"<shingle>|<count>"`
entry per distinct shingle, the counts being accumulated by `bump` over the
same shingle occurrence sequence as non-count mode. -/
theorem get_atom_pair_shingles_true (tk : Toolkit)
    (envs : Nat → List (Option String)) (radius : Nat) :
    get_atom_pair_shingles tk envs radius true
      = ((all_shingles tk envs radius).foldl (fun d sh => bump sh d) []).map
          (fun kc => kc.1 ++ "|" ++ toString kc.2) := by
  unfold get_atom_pair_shingles
  simp only [if_true]
  have hstep : (fun (acc : List String × List (String × Nat)) (p : Nat × Nat) =>
      (List.range radius).foldl
        (fun a r =>
          match shingle_at tk envs p.1 p.2 r with
          | none => a
          | some sh => (a.1, bump sh a.2)) acc)
      = fun acc p =>
        ((List.range radius).filterMap (shingle_at tk envs p.1 p.2)).foldl
          (fun a sh => (a.1, bump sh a.2)) acc := by
    funext acc p
    rw [foldl_match_opt]
  rw [hstep, foldl_pairs, foldl_bump_snd]
  rfl

theorem bump_keys (k : String) (d : List (String × Nat)) :
    (bump k d).map Prod.fst
      = if k ∈ d.map Prod.fst then d.map Prod.fst
        else d.map Prod.fst ++ [k] := by
  induction d with
  | nil => simp [bump]
  | cons kc rest ih =>
    obtain ⟨k', c⟩ := kc
    by_cases h : k' = k
    · subst h
      simp [bump]
    · have hne : ¬ k = k' := fun hc => h hc.symm
      simp only [bump, if_neg h, List.map_cons, List.mem_cons, ih]
      by_cases hmem : k ∈ rest.map Prod.fst
      · simp [hmem, hne]
      · simp [hmem, hne]

theorem bump_keys_nodup (k : String) (d : List (String × Nat))
    (h : (d.map Prod.fst).Nodup) : ((bump k d).map Prod.fst).Nodup := by
  rw [bump_keys]
  by_cases hmem : k ∈ d.map Prod.fst
  · rwa [if_pos hmem]
  · rw [if_neg hmem, ← List.concat_eq_append]
    exact List.Nodup.concat hmem h

theorem bump_keys_toFinset (k : String) (d : List (String × Nat)) :
    ((bump k d).map Prod.fst).toFinset
      = insert k (d.map Prod.fst).toFinset := by
  rw [bump_keys]
  by_cases hmem : k ∈ d.map Prod.fst
  · rw [if_pos hmem, Finset.insert_eq_self.mpr (List.mem_toFinset.mpr hmem)]
  · rw [if_neg hmem, List.toFinset_append]
    simp [Finset.union_comm, Finset.insert_eq]

theorem fold_bump_keys_nodup :
    ∀ (S : List String) (d : List (String × Nat)),
      (d.map Prod.fst).Nodup
      → ((S.foldl (fun d sh => bump sh d) d).map Prod.fst).Nodup := by
  intro S
  induction S with
  | nil => exact fun d h => h
  | cons sh S ih =>
    intro d h
    exact ih (bump sh d) (bump_keys_nodup sh d h)

theorem fold_bump_keys_toFinset :
    ∀ (S : List String) (d : List (String × Nat)),
      ((S.foldl (fun d sh => bump sh d) d).map Prod.fst).toFinset
        = (d.map Prod.fst).toFinset ∪ S.toFinset := by
  intro S
  induction S with
  | nil => intro d; simp
  | cons sh S ih =>
    intro d
    rw [List.foldl_cons, ih (bump sh d), bump_keys_toFinset, List.toFinset_cons]
    rw [Finset.insert_union, Finset.union_insert]

/-- The count-mode dictionary ends with one entry per distinct shingle. -/
theorem fold_bump_length (S : List String) :
    (S.foldl (fun d sh => bump sh d) []).length = S.toFinset.card := by
  have hkeys := fold_bump_keys_toFinset S []
  have hnodup := fold_bump_keys_nodup S [] (by simp)
  simp only [List.map_nil, List.toFinset_nil, Finset.empty_union] at hkeys
  rw [← hkeys, List.toFinset_card_of_nodup hnodup, List.length_map]

theorem foldl_max_init : ∀ (l : List Nat) (a : Nat),
    a ≤ l.foldl (fun a x => max a (x + 1)) a := by
  intro l
  induction l with
  | nil => exact fun a => le_refl a
  | cons x l ih =>
    intro a
    exact le_trans (le_max_left a (x + 1)) (ih (max a (x + 1)))

theorem foldl_max_ge : ∀ (l : List Nat) (b : Nat), b ∈ l →
    ∀ a, b + 1 ≤ l.foldl (fun a x => max a (x + 1)) a := by
  intro l
  induction l with
  | nil => intro b hb; exact absurd hb (List.not_mem_nil b)
  | cons x l ih =>
    intro b hb a
    rcases List.mem_cons.mp hb with rfl | hb'
    · exact le_trans (le_max_right a (b + 1)) (foldl_max_init l _)
    · exact ih b hb' _

theorem foldl_max_le : ∀ (l : List Nat) (m : Nat), (∀ b ∈ l, b + 1 ≤ m) →
    ∀ a, a ≤ m → l.foldl (fun a x => max a (x + 1)) a ≤ m := by
  intro l
  induction l with
  | nil => exact fun m _ a ha => ha
  | cons x l ih =>
    intro m h a ha
    exact ih m (fun b hb => h b (List.mem_cons_of_mem _ hb)) _
      (max_le ha (h x (List.mem_cons_self _ _)))

/-- When every value is below `minlength`, the histogram has exactly
`minlength` entries. -/
theorem bincount_length (bits : List Nat) (m : Nat)
    (h : ∀ b ∈ bits, b < m) : (bincount bits m).length = m := by
  unfold bincount
  rw [List.length_map, List.length_range]
  exact max_eq_right (foldl_max_le bits m (fun b hb => h b hb) 0 (Nat.zero_le m))

theorem sum_map_add_nat (f g : Nat → Nat) :
    ∀ l : List Nat, (l.map (fun x => f x + g x)).sum
      = (l.map f).sum + (l.map g).sum := by
  intro l
  induction l with
  | nil => rfl
  | cons x l ih =>
    simp only [List.map_cons, List.sum_cons, ih]
    omega

theorem sum_map_indicator (b : Nat) :
    ∀ l : List Nat, (l.map (fun k => if k = b then 1 else 0)).sum = l.count b := by
  intro l
  induction l with
  | nil => rfl
  | cons k l ih =>
    simp only [List.map_cons, List.sum_cons, ih, List.count_cons]
    by_cases h : k = b
    · subst h
      simp [Nat.add_comm]
    · have h2 : ¬ b = k := fun hc => h hc.symm
      simp [h, h2]

theorem sum_map_count (l : List Nat) :
    ∀ n : Nat, (∀ b ∈ l, b < n)
      → ((List.range n).map (fun k => l.count k)).sum = l.length := by
  induction l with
  | nil => intro n _; simp
  | cons b l ih =>
    intro n h
    have hcongr : (List.range n).map (fun k => (b :: l).count k)
        = (List.range n).map
            (fun k => l.count k + if k = b then 1 else 0) := by
      apply List.map_congr_left
      intro k _
      rw [List.count_cons]
      by_cases hkb : k = b
      · simp [hkb]
      · have h2 : ¬ b = k := fun hc => hkb hc.symm
        simp [hkb, h2]
    rw [hcongr, sum_map_add_nat, ih n (fun x hx => h x (List.mem_cons_of_mem _ hx)),
      sum_map_indicator,
      List.count_eq_one_of_mem (List.nodup_range n)
        (List.mem_range.mpr (h b (List.mem_cons_self _ _)))]
    simp

/-- The histogram entries always sum to the number of hashed values. -/
theorem bincount_sum (bits : List Nat) (m : Nat) :
    (bincount bits m).sum = bits.length := by
  unfold bincount
  apply sum_map_count
  intro b hb
  exact lt_of_lt_of_le (foldl_max_ge bits b hb 0) (le_max_left _ m)

theorem getD_ne_some_empty (l : List (Option String))
    (h : ∀ o ∈ l, o ≠ some "") : ∀ i : Nat, l.getD i none ≠ some "" := by
  induction l with
  | nil => intro i; simp
  | cons o l ih =>
    intro i
    cases i with
    | zero => simpa using h o (List.mem_cons_self _ _)
    | succ n => simpa using ih (fun o ho => h o (List.mem_cons_of_mem _ ho)) n

/-- Neighborhood strings coming out of `_find_neighborhood` are never the
empty string, as the canonical SMILES of a submol containing the rooted atom
is nonempty. -/
theorem get_atom_envs_ne_some_empty (tk : Toolkit) (radius : Nat)
    (hS : ∀ env idx, tk.smilesOf env idx ≠ "") (idx i : Nat) :
    (get_atom_envs tk radius idx).getD i none ≠ some "" := by
  apply getD_ne_some_empty
  intro o ho
  rcases List.mem_map.mp ho with ⟨r, _, rfl⟩
  unfold find_neighborhood
  cases tk.envOfRadius idx r with
  | none => simp
  | some env =>
    by_cases hmap : tk.inSubmolMap env idx
    · simpa [hmap] using hS env idx
    · simp [hmap]

theorem shingle_at_eq_match (tk : Toolkit) (envs : Nat → List (Option String))
    (hne : ∀ idx i, (envs idx).getD i none ≠ some "") (i j ridx : Nat) :
    shingle_at tk envs i j ridx
      = match (envs i).getD ridx none, (envs j).getD ridx none with
        | some a, some b =>
          some (mk_shingle (toString (py_int (tk.dist i j))) a b)
        | _, _ => none := by
  simp only [shingle_at]
  cases hA : (envs i).getD ridx none with
  | none => simp [py_truthy]
  | some a =>
    have ha : a ≠ "" := fun hc => hne i ridx (hc ▸ hA)
    have hta : py_truthy (some a) = true := by
      have hf : a.isEmpty = false := by
        rcases Bool.eq_false_or_eq_true a.isEmpty with h | h
        · exact absurd ((String.isEmpty_iff a).mp h) ha
        · exact h
      simp [py_truthy, hf]
    cases hB : (envs j).getD ridx none with
    | none => simp [py_truthy]
    | some b =>
      have hb : b ≠ "" := fun hc => hne j ridx (hc ▸ hB)
      have htb : py_truthy (some b) = true := by
        have hf : b.isEmpty = false := by
          rcases Bool.eq_false_or_eq_true b.isEmpty with h | h
          · exact absurd ((String.isEmpty_iff b).mp h) hb
          · exact h
        simp [py_truthy, hf]
      simp [hta, htb]

end MAP

namespace MAP

/-- C6: for every unordered pair of distinct atom indices and every radius, a
shingle occurrence is generated exactly when both neighborhood strings
at that radius exist, the shingle being the lexicographically smaller
neighborhood string, the truncated integer shortest-path distance, and the
larger neighborhood string joined by "|"; in non-count mode duplicates are
retained in iteration order.  The hypothesis records that the external
`MolToSmiles` never returns an empty string for a rooted submol. -/
theorem c6_shingle_characterization (tk : Toolkit) (radius : Nat)
    (hS : ∀ env idx, tk.smilesOf env idx ≠ "") :
    (get_atom_pair_shingles tk (get_atom_envs tk radius) radius false
      = (combinations2 tk.numAtoms).flatMap (fun p =>
          (List.range radius).filterMap (fun ridx =>
            match (get_atom_envs tk radius p.1).getD ridx none,
                (get_atom_envs tk radius p.2).getD ridx none with
            | some a, some b =>
              some (mk_shingle (toString (py_int (tk.dist p.1 p.2))) a b)
            | _, _ => none)))
    ∧ ∀ d a b : String, mk_shingle d a b
        = min a b ++ "|" ++ d ++ "|" ++ max a b := by
  constructor
  · rw [get_atom_pair_shingles_false]
    unfold all_shingles
    rw [show (fun p : Nat × Nat =>
        (List.range radius).filterMap
          (shingle_at tk (get_atom_envs tk radius) p.1 p.2))
        = (fun p : Nat × Nat =>
          (List.range radius).filterMap (fun ridx =>
            match (get_atom_envs tk radius p.1).getD ridx none,
                (get_atom_envs tk radius p.2).getD ridx none with
            | some a, some b =>
              some (mk_shingle (toString (py_int (tk.dist p.1 p.2))) a b)
            | _, _ => none)) from ?_]
    funext p
    rw [show (shingle_at tk (get_atom_envs tk radius) p.1 p.2)
        = (fun ridx =>
          match (get_atom_envs tk radius p.1).getD ridx none,
              (get_atom_envs tk radius p.2).getD ridx none with
          | some a, some b =>
            some (mk_shingle (toString (py_int (tk.dist p.1 p.2))) a b)
          | _, _ => none) from ?_]
    funext ridx
    exact shingle_at_eq_match tk _
      (fun idx i => get_atom_envs_ne_some_empty tk radius hS idx i) p.1 p.2 ridx
  · intro d a b
    rw [mk_shingle, sorted2_min_max]

/-- Witness for C6 on the concrete two-atom toolkit. -/
theorem c6_witness :
    (∀ env idx, tk_pair.smilesOf env idx ≠ "")
    ∧ ((get_atom_pair_shingles tk_pair (get_atom_envs tk_pair 1) 1 false
        = (combinations2 tk_pair.numAtoms).flatMap (fun p =>
            (List.range 1).filterMap (fun ridx =>
              match (get_atom_envs tk_pair 1 p.1).getD ridx none,
                  (get_atom_envs tk_pair 1 p.2).getD ridx none with
              | some a, some b =>
                some (mk_shingle (toString (py_int (tk_pair.dist p.1 p.2))) a b)
              | _, _ => none)))
      ∧ ∀ d a b : String, mk_shingle d a b
          = min a b ++ "|" ++ d ++ "|" ++ max a b) :=
  ⟨fun _ _ => show ("C" : String) ≠ "" by decide,
    c6_shingle_characterization tk_pair 1
      (fun _ _ => show ("C" : String) ≠ "" by decide)⟩

/-- C8: swapping the two atoms of a pair yields the same shingle, given the
symmetry of the distance matrix, because the two neighborhood strings are
sorted before concatenation. -/
theorem c8_pair_order_independence (tk : Toolkit)
    (envs : Nat → List (Option String)) (i j ridx : Nat)
    (hsym : tk.dist i j = tk.dist j i) :
    shingle_at tk envs i j ridx = shingle_at tk envs j i ridx := by
  simp only [shingle_at]
  rw [hsym, Bool.and_comm]
  by_cases h : (py_truthy ((envs j).getD ridx none)
      && py_truthy ((envs i).getD ridx none)) = true
  · rw [if_pos h, if_pos h, mk_shingle_comm]
  · rw [if_neg h, if_neg h]

/-- Witness for C8 on the concrete two-atom toolkit. -/
theorem c8_witness :
    tk_pair.dist 0 1 = tk_pair.dist 1 0
    ∧ shingle_at tk_pair (get_atom_envs tk_pair 1) 0 1 0
      = shingle_at tk_pair (get_atom_envs tk_pair 1) 1 0 0 :=
  ⟨by decide,
    c8_pair_order_independence tk_pair (get_atom_envs tk_pair 1) 0 1 0
      (by decide)⟩

/-- C9: neighborhood extraction is total — when `FindAtomEnvironmentOfRadiusN`
fails (raises) or the atom is absent from the submol atom map, the result is
the absent sentinel `none`; concretely, the two-atom molecule `[Li]F` at
`max_radius = 2` gets `none` at radius 2 for both atoms and its shingle list
contains only the single radius-1 shingle. -/
theorem c9_neighborhood_absent :
    (∀ (tk : Toolkit) (idx r : Nat), tk.envOfRadius idx r = none →
      find_neighborhood tk idx r = none)
    ∧ (∀ (tk : Toolkit) (idx r : Nat) (env : List Nat),
        tk.envOfRadius idx r = some env → tk.inSubmolMap env idx = false →
        find_neighborhood tk idx r = none)
    ∧ get_atom_envs tk_lif 2 0 = [some "[Li]F", none]
    ∧ get_atom_envs tk_lif 2 1 = [some "F[Li]", none]
    ∧ get_atom_pair_shingles tk_lif (get_atom_envs tk_lif 2) 2 false
      = ["F[Li]|1|[Li]F"] := by
  refine ⟨?_, ?_, rfl, rfl, rfl⟩
  · intro tk idx r h
    unfold find_neighborhood
    rw [h]
  · intro tk idx r env h hmap
    unfold find_neighborhood
    rw [h]
    simp [hmap]

/-- Witness for C9: the sentinel cases applied at the concrete toolkit. -/
theorem c9_witness :
    tk_lif.envOfRadius 0 2 = none ∧ find_neighborhood tk_lif 0 2 = none :=
  ⟨rfl, c9_neighborhood_absent.1 tk_lif 0 2 rfl⟩

end MAP

namespace MAP

theorem all_shingles_radius_zero (tk : Toolkit)
    (envs : Nat → List (Option String)) : all_shingles tk envs 0 = [] := by
  unfold all_shingles
  rw [List.range_zero]
  exact List.flatMap_eq_nil_iff.mpr (fun l hl => rfl)

theorem bincount_nil (m : Nat) : bincount [] m = List.replicate m 0 := by
  unfold bincount
  simp only [List.foldl_nil, Nat.zero_le, max_eq_right, List.count_nil]
  rw [List.map_const', List.length_range]

/-- C10: with `radius = 0`, no shingles are generated in either mode, and the
bit-variant and count-variant fingerprints are the all-zero vector of length
`fp_size`, for every molecule. -/
theorem c10_radius_zero (tk : Toolkit) (fp_size : Nat)
    (sha1 : String → List Nat) (perm_hash : Nat → String → Nat)
    (init_val : Nat) :
    get_atom_pair_shingles tk (get_atom_envs tk 0) 0 false = []
    ∧ get_atom_pair_shingles tk (get_atom_envs tk 0) 0 true = []
    ∧ final_fingerprint tk 0 fp_size .bit sha1 perm_hash init_val
      = List.replicate fp_size 0
    ∧ final_fingerprint tk 0 fp_size .count sha1 perm_hash init_val
      = List.replicate fp_size 0 := by
  have hfalse : get_atom_pair_shingles tk (get_atom_envs tk 0) 0 false = [] := by
    rw [get_atom_pair_shingles_false, all_shingles_radius_zero]
  have htrue : get_atom_pair_shingles tk (get_atom_envs tk 0) 0 true = [] := by
    rw [get_atom_pair_shingles_true, all_shingles_radius_zero]
    rfl
  refine ⟨hfalse, htrue, ?_, ?_⟩
  · show (calculate_single_mol_fingerprint tk 0 fp_size .bit sha1 perm_hash
      init_val).map (fun v => if 0 < v then 1 else 0) = _
    unfold calculate_single_mol_fingerprint
    dsimp only
    rw [show Variant.countMode .bit = false from rfl, hfalse]
    simp only [List.map_nil]
    rw [bincount_nil, List.map_replicate]
    rfl
  · show calculate_single_mol_fingerprint tk 0 fp_size .count sha1 perm_hash
      init_val = _
    unfold calculate_single_mol_fingerprint
    dsimp only
    rw [show Variant.countMode .count = true from rfl, htrue]
    simp only [List.map_nil]
    exact bincount_nil fp_size

/-- C1 counterexample: for the propane toolkit in count mode the sum of the
count vector is 2 — the number of distinct shingle strings — while the number
of (atom-pair, radius) combinations with both neighborhoods present is 3 (the
shingle of pairs (0,1) and (1,2) coincides), so the two quantities differ. -/
theorem c1_counterexample :
    (final_fingerprint tk_propane 1 4 .count sha_zero (fun _ _ => 0) 0).sum = 2
    ∧ num_valid_combos tk_propane (get_atom_envs tk_propane 1) 1 = 3 := by
  constructor
  · rfl
  · rfl

/-- C1 as amended: for every molecule in count mode, the sum of the entries of
the count vector equals the number of **distinct** shingle strings — each
(atom-pair, radius) combination with both neighborhoods present contributes
its shingle, but duplicates are hashed only once (the dictionary entry
`"<shingle>|<count>"` is a single hashed string). -/
theorem c1_amended_count_sum_distinct (tk : Toolkit) (radius fp_size : Nat)
    (sha1 : String → List Nat) (perm_hash : Nat → String → Nat)
    (init_val : Nat) :
    (final_fingerprint tk radius fp_size .count sha1 perm_hash init_val).sum
      = (all_shingles tk (get_atom_envs tk radius) radius).toFinset.card := by
  show (calculate_single_mol_fingerprint tk radius fp_size .count sha1
    perm_hash init_val).sum = _
  unfold calculate_single_mol_fingerprint
  dsimp only
  rw [show Variant.countMode .count = true from rfl]
  rw [bincount_sum, List.length_map, List.length_map,
    get_atom_pair_shingles_true, List.length_map, fold_bump_length]

end MAP

namespace MAP

theorem le_u32_lt : ∀ bs : List Nat, (∀ b ∈ bs, b < 256)
    → le_u32 bs < 4294967296 := by
  intro bs h
  match bs with
  | [] => show (0 : Nat) < 4294967296; decide
  | [b0] => show (0 : Nat) < 4294967296; decide
  | [b0, b1] => show (0 : Nat) < 4294967296; decide
  | [b0, b1, b2] => show (0 : Nat) < 4294967296; decide
  | b0 :: b1 :: b2 :: b3 :: rest =>
    have h0 := h b0 (by simp)
    have h1 := h b1 (by simp)
    have h2 := h b2 (by simp)
    have h3 := h b3 (by simp)
    show b0 + 256 * b1 + 65536 * b2 + 16777216 * b3 < 4294967296
    omega

/-- C5: in the bit and count variants, every bucket index used for folding is
`le_u32(digest[:4]) % fp_size` — the first 4 digest bytes as an unsigned
little-endian 32-bit integer reduced modulo the output size — matching the
formula of the specification, lying in `[0, fp_size)`, and the unreduced hash fits
in 32 bits whenever the digest consists of bytes. -/
theorem c5_bucket_index (tk : Toolkit) (radius fp_size : Nat)
    (sha1 : String → List Nat) (perm_hash : Nat → String → Nat)
    (init_val : Nat) (sh : String) (hfp : 1 ≤ fp_size)
    (hbytes : ∀ b ∈ sha1 sh, b < 256) :
    calculate_single_mol_fingerprint tk radius fp_size .bit sha1 perm_hash
        init_val
      = bincount
          ((get_atom_pair_shingles tk (get_atom_envs tk radius) radius
            false).map (fun s2 => spec_bucket_index (sha1 s2) fp_size))
          fp_size
    ∧ get_hash (sha1 sh) % fp_size = spec_bucket_index (sha1 sh) fp_size
    ∧ spec_bucket_index (sha1 sh) fp_size < fp_size
    ∧ get_hash (sha1 sh) < 4294967296 := by
  refine ⟨?_, rfl, Nat.mod_lt _ hfp, ?_⟩
  · unfold calculate_single_mol_fingerprint
    dsimp only
    rw [show Variant.countMode .bit = false from rfl, List.map_map]
    rfl
  · exact le_u32_lt _ (fun b hb => hbytes b (List.take_subset 4 _ hb))

/-- Witness for C5 at a concrete shingle and digest. -/
theorem c5_witness :
    ((1 : Nat) ≤ 4 ∧ ∀ b ∈ sha_zero "C|1|C", b < 256)
    ∧ (calculate_single_mol_fingerprint tk_pair 1 4 .bit sha_zero
          (fun _ _ => 0) 0
        = bincount
            ((get_atom_pair_shingles tk_pair (get_atom_envs tk_pair 1) 1
              false).map (fun s2 => spec_bucket_index (sha_zero s2) 4)) 4
      ∧ get_hash (sha_zero "C|1|C") % 4 = spec_bucket_index (sha_zero "C|1|C") 4
      ∧ spec_bucket_index (sha_zero "C|1|C") 4 < 4
      ∧ get_hash (sha_zero "C|1|C") < 4294967296) :=
  ⟨⟨by decide, by decide⟩,
    c5_bucket_index tk_pair 1 4 sha_zero (fun _ _ => 0) 0 "C|1|C" (by decide)
      (by decide)⟩

/-- C7: for every molecule and configuration, the fingerprint vector has
length exactly `fp_size`, in each of the three variants. -/
theorem c7_fingerprint_length (tk : Toolkit) (radius fp_size : Nat)
    (variant : Variant) (sha1 : String → List Nat)
    (perm_hash : Nat → String → Nat) (init_val : Nat) (hfp : 1 ≤ fp_size) :
    (final_fingerprint tk radius fp_size variant sha1 perm_hash
      init_val).length = fp_size := by
  have hfold : ∀ S : List String,
      (bincount ((S.map (fun sh => get_hash (sha1 sh))).map
        (fun h => h % fp_size)) fp_size).length = fp_size := by
    intro S
    apply bincount_length
    intro b hb
    rcases List.mem_map.mp hb with ⟨x, _, rfl⟩
    exact Nat.mod_lt _ hfp
  cases variant with
  | raw_hashes =>
    show (minhash_digest fp_size perm_hash init_val _).length = fp_size
    unfold minhash_digest
    rw [List.length_map, List.length_range]
  | bit =>
    show ((calculate_single_mol_fingerprint tk radius fp_size .bit sha1
      perm_hash init_val).map (fun v => if 0 < v then 1 else 0)).length
      = fp_size
    rw [List.length_map]
    exact hfold _
  | count =>
    show (calculate_single_mol_fingerprint tk radius fp_size .count sha1
      perm_hash init_val).length = fp_size
    exact hfold _

/-- Witness for C7 at a concrete configuration, for all three variants. -/
theorem c7_witness :
    (1 : Nat) ≤ 4
    ∧ (final_fingerprint tk_pair 1 4 .raw_hashes sha_zero (fun _ _ => 0)
        0).length = 4
    ∧ (final_fingerprint tk_pair 1 4 .bit sha_zero (fun _ _ => 0) 0).length = 4
    ∧ (final_fingerprint tk_pair 1 4 .count sha_zero (fun _ _ => 0) 0).length
      = 4 :=
  ⟨by decide,
    c7_fingerprint_length tk_pair 1 4 .raw_hashes sha_zero (fun _ _ => 0) 0
      (by decide),
    c7_fingerprint_length tk_pair 1 4 .bit sha_zero (fun _ _ => 0) 0
      (by decide),
    c7_fingerprint_length tk_pair 1 4 .count sha_zero (fun _ _ => 0) 0
      (by decide)⟩

end MAP
